import Mathlib

/-!
# Verification of the pydra `TypeParser` type-pattern matching and coercion engine

Shallow embedding of `src/pydra/utils/typing.py` (class `TypeParser`).

Modelling conventions:
* Python classes relevant to the engine become the enumeration `PyAtom`;
  Python's `issubclass` on those classes becomes `subAtom`.
* Declared (possibly parameterized) Python types become `PyTy`
  (`typing.Any`, `Ellipsis`, plain classes, `Origin[args...]`, `Union[...]`).
* Runtime values become `Val`; `type(obj)` becomes `typeOf`.
* Fallible Python code (raising `TypeError`) becomes `Except Err _`.
* Recursive functions over the nested inductives are written with an explicit
  `Nat` fuel argument (structural recursion on the fuel, so that the kernel can
  evaluate them); the public wrappers seed the fuel with `sizeOf` of the
  decreasing argument, which bounds the recursion depth of the Python original.
* numpy is treated as absent (`HAVE_NUMPY = False`), so `COERCIBLE_DEFAULT`
  holds exactly the eight base rules of the source.
-/

/-- The Python classes (concrete and abstract) the engine manipulates.
`aseq`/`amap` are `typing.Sequence`/`typing.Mapping` (i.e. the collections
ABCs), `apathlike` is `os.PathLike`, `amulti` is `MultiInputObj` (a `list`
subclass), `astate` is `StateArray` (also a `list` subclass). -/
inductive PyAtom where
  | aint | afloat | abool | astr | abytes
  | apath | apathlike
  | alist | atuple | adict
  | aseq | amap
  | amulti | astate
deriving DecidableEq, Repr

/-- Python `issubclass` restricted to the atoms above: reflexivity plus the
class hierarchy used by the source (`bool <: int`, `list/tuple/str/bytes <:
Sequence`, `dict <: Mapping`, `Path <: os.PathLike`, `MultiInputObj`/`StateArray
<: list <: Sequence`). -/
def subAtom (a b : PyAtom) : Bool :=
  a == b ||
    match a, b with
    | .abool, .aint => true
    | .alist, .aseq => true
    | .atuple, .aseq => true
    | .astr, .aseq => true
    | .abytes, .aseq => true
    | .adict, .amap => true
    | .apath, .apathlike => true
    | .amulti, .alist => true
    | .amulti, .aseq => true
    | .astate, .alist => true
    | .astate, .aseq => true
    | _, _ => false

/-- A declared Python type as the engine sees it: `typing.Any`, the `Ellipsis`
marker (only ever an argument of a tuple type), a plain class, a parameterized
generic (`get_origin`/`get_args` view), or a `typing.Union`. -/
inductive PyTy where
  | anyT : PyTy
  | ellipsisT : PyTy
  | atom : PyAtom → PyTy
  | generic : PyAtom → List PyTy → PyTy
  | unionT : List PyTy → PyTy
deriving Repr

mutual
/-- Size of a declared type (computable fuel seed for the recursions). -/
def tySize : PyTy → Nat
  | .anyT => 1
  | .ellipsisT => 1
  | .atom _ => 1
  | .generic _ args => 1 + tySizeL args
  | .unionT args => 1 + tySizeL args
def tySizeL : List PyTy → Nat
  | [] => 0
  | t :: ts => 1 + tySize t + tySizeL ts
end

/-- A runtime Python value. Floats are carried as integers because no claim
depends on fractional values (`float(1)` is modelled as `vfloat 1`). -/
inductive Val where
  | vint : Int → Val
  | vbool : Bool → Val
  | vfloat : Int → Val
  | vstr : String → Val
  | vpath : String → Val
  | vlist : List Val → Val
  | vtuple : List Val → Val
  | vdict : List (Val × Val) → Val
deriving Repr

/-- `type(obj)` for the modelled values. -/
def typeOf : Val → PyAtom
  | .vint _ => .aint
  | .vbool _ => .abool
  | .vfloat _ => .afloat
  | .vstr _ => .astr
  | .vpath _ => .apath
  | .vlist _ => .alist
  | .vtuple _ => .atuple
  | .vdict _ => .adict

/-- `TypeParser.is_instance(obj, candidate)` for a single class candidate. -/
def instAtom (v : Val) (a : PyAtom) : Bool :=
  subAtom (typeOf v) a

/-- `TypeParser.is_instance(obj, candidate)` where the candidate is a declared
type leaf (`ty.Any` accepts everything). `isinstance` against a parameterized
generic or a union raises in Python; those candidates never occur in expanded
patterns, and are modelled coarsely. -/
def instTy (v : Val) : PyTy → Bool
  | .anyT => true
  | .ellipsisT => false
  | .atom a => instAtom v a
  | .generic a _ => instAtom v a
  | .unionT _ => false

/-- One side of a coercion rule: a plain class or `typing.Any`
(`COERCIBLE_DEFAULT` / `NOT_COERCIBLE_DEFAULT` use exactly these shapes). -/
inductive RuleTy where
  | anyR : RuleTy
  | atomR : PyAtom → RuleTy
deriving DecidableEq, Repr

/-- A `(source, target)` pair of `coercible` / `not_coercible`. -/
abbrev CoRule := RuleTy × RuleTy

/-- `is_instance(obj, ruleSide)`: `ty.Any` accepts everything. -/
def instRule (v : Val) : RuleTy → Bool
  | .anyR => true
  | .atomR a => subAtom (typeOf v) a

/-- `is_subclass(klass, ruleSide)` for a plain class `klass`
(`candidate is ty.Any` returns true). -/
def subAtomRule (a : PyAtom) : RuleTy → Bool
  | .anyR => true
  | .atomR b => subAtom a b

/-- `is_subclass(target, ruleSide)` where `target` is a pattern leaf or an
origin class. Expanded patterns only put `Any` or plain classes here; the
`generic` case unwraps to its origin, unions never occur as targets. -/
def tySubRule : PyTy → RuleTy → Bool
  | .anyT, r => r == .anyR
  | .ellipsisT, _ => false
  | .atom a, r => subAtomRule a r
  | .generic a _, r => subAtomRule a r
  | .unionT _, _ => false

/-- The `source` argument of `check_coercible`: either a runtime object
(`coerce` path) or a declared type (`check_type` path). -/
inductive Source where
  | obj : Val → Source
  | cls : PyTy → Source

/-- The Python `source is target` identity test of `check_coercible`
(line 426). Classes and the `typing.Any` / `Ellipsis` singletons are identical
exactly when equal; a runtime object is never identical to a type; distinct
subscriptions of a generic are modelled as never identical (such sources are
never compared against a generic target in the engine). -/
def sourceIs : Source → PyTy → Bool
  | .cls (.atom a), .atom b => a == b
  | .cls .anyT, .anyT => true
  | .cls .ellipsisT, .ellipsisT => true
  | _, _ => false

/-- `source_check(source, ruleSide)` after the `get_origin` unwrap: a class
source uses `is_subclass`, a non-class source (the `ty.Any` or union objects)
is an `is_instance` check that only the `ty.Any` rule side satisfies. -/
def sourceCheckCls (k : PyTy) (r : RuleTy) : Bool :=
  match k with
  | .atom a => subAtomRule a r
  | .generic a _ => subAtomRule a r
  | _ => r == .anyR

/-- Does a single rule `(src, tgt)` match, i.e.
`source_check(source, src) and is_subclass(target, tgt)` (lines 434-439). -/
def ruleMatches (s : Source) (target : PyTy) (rule : CoRule) : Bool :=
  (match s with
   | .obj v => instRule v rule.1
   | .cls k => sourceCheckCls k rule.1)
  && tySubRule target rule.2

/-- The errors the engine raises (Python `TypeError`s; `.internal` stands for
the assertion/unpacking failures on inputs no compiled pattern produces, and
`.fuelOut` for fuel exhaustion, unreachable from the wrappers). -/
inductive Err where
  | noAllow : Err
  | denied : Err
  | construct : Err
  | notIterable : Err
  | notMapping : Err
  | arity : Nat → Nat → Err
  | unionAgg : List Err → Err
  | needsTypeArgs : Err
  | patternMismatch : Err
  | wrongTypeArgCount : Err
  | genericEllipsisUnderspecified : Err
  | stateArrayNoArgs : Err
  | stateArrayMultiArgs : Err
  | notSequence : Err
  | multiItem : Err
  | internal : Err
  | fuelOut : Err
deriving Repr

/-- `TypeParser.check_coercible` (lines 406-464): succeed immediately when
`source is target`; otherwise reject when no `coercible` (ALLOW) rule matches,
reject when some `not_coercible` (DENY) rule matches, accept otherwise. -/
def check_coercible (allow deny : List CoRule) (s : Source) (target : PyTy) :
    Except Err Unit :=
  if sourceIs s target then .ok ()
  else if !(allow.any (ruleMatches s target)) then .error .noAllow
  else if deny.any (ruleMatches s target) then .error .denied
  else .ok ()

/-- `Except.isOk` as a Bool. -/
def Except.isOkB : Except Err α → Bool
  | .ok _ => true
  | .error _ => false

/-- A compiled coercion pattern, the result of `expand_pattern` (lines
97-108): either a plain leaf type, or an `(origin, args)` tuple whose origin
is `ty.Union` or a container class. -/
inductive Pat where
  | basic : PyTy → Pat
  | union : List Pat → Pat
  | cont : PyAtom → List Pat → Pat
deriving Repr

mutual
/-- Size of a compiled pattern (computable fuel seed for the recursions). -/
def patSize : Pat → Nat
  | .basic _ => 1
  | .union args => 1 + patSizeL args
  | .cont _ args => 1 + patSizeL args
def patSizeL : List Pat → Nat
  | [] => 0
  | p :: ps => 1 + patSize p + patSizeL ps
end

/-- `expand_pattern` (fuel-driven recursion over the declared type): generic
types with no args (or a lone `Ellipsis` arg) collapse to their origin,
non-generic types pass through as leaves. -/
def expandPatternF : Nat → PyTy → Pat
  | 0, _ => .basic .anyT
  | _ + 1, .anyT => .basic .anyT
  | _ + 1, .ellipsisT => .basic .ellipsisT
  | _ + 1, .atom a => .basic (.atom a)
  | f + 1, .generic a args =>
    match args with
    | [] => .basic (.atom a)
    | [.ellipsisT] => .basic (.atom a)
    | _ => .cont a (args.map (expandPatternF f))
  | f + 1, .unionT args => .union (args.map (expandPatternF f))

/-- `expand_pattern(tp)` with sufficient fuel. -/
def expandPattern (t : PyTy) : Pat := expandPatternF (tySize t) t

/-- Abstraction of the builtin `str()` (always succeeds; the exact repr of
containers is irrelevant to every claim, so they get placeholders). -/
def pyStr : Val → String
  | .vint n => toString n
  | .vbool b => if b then "True" else "False"
  | .vfloat n => toString n ++ ".0"
  | .vstr s => s
  | .vpath s => s
  | .vlist _ => "<list>"
  | .vtuple _ => "<tuple>"
  | .vdict _ => "<dict>"

/-- Abstraction of the builtin truthiness used by `bool()`. -/
def pyTruthy : Val → Bool
  | .vint n => n != 0
  | .vbool b => b
  | .vfloat n => n != 0
  | .vstr s => s.length != 0
  | .vpath _ => true
  | .vlist xs => !xs.isEmpty
  | .vtuple xs => !xs.isEmpty
  | .vdict ps => !ps.isEmpty

/-- `list(obj)` (line 172): sequences yield their elements, strings their
characters, mappings their keys; other values raise `TypeError`. -/
def listify : Val → Except Err (List Val)
  | .vlist xs => .ok xs
  | .vtuple xs => .ok xs
  | .vstr s => .ok (s.toList.map (fun c => .vstr (String.singleton c)))
  | .vdict ps => .ok (ps.map (·.1))
  | _ => .error .notIterable

/-- `obj.items()` (line 216): only mappings have it. -/
def itemsOf : Val → Except Err (List (Val × Val))
  | .vdict ps => .ok ps
  | _ => .error .notMapping

/-- The innermost constructor call `type_(obj)` of `coerce_to_type` for leaf
target classes, modelling the Python builtins' behaviour on the modelled
values (`int(float)` truncation is exact because model floats are integral;
abstract classes cannot be instantiated). -/
def constructAtom (a : PyAtom) (v : Val) : Except Err Val :=
  match a with
  | .aint =>
    match v with
    | .vint n => .ok (.vint n)
    | .vbool b => .ok (.vint (if b then 1 else 0))
    | .vfloat n => .ok (.vint n)
    | _ => .error .construct
  | .afloat =>
    match v with
    | .vint n => .ok (.vfloat n)
    | .vbool b => .ok (.vfloat (if b then 1 else 0))
    | .vfloat n => .ok (.vfloat n)
    | _ => .error .construct
  | .abool => .ok (.vbool (pyTruthy v))
  | .astr => .ok (.vstr (pyStr v))
  | .apath =>
    match v with
    | .vstr s => .ok (.vpath s)
    | .vpath s => .ok (.vpath s)
    | _ => .error .construct
  | .alist => (listify v).map .vlist
  | .atuple => (listify v).map .vtuple
  | .adict =>
    match v with
    | .vdict ps => .ok (.vdict ps)
    | _ => .error .construct
  | .amulti =>
    match listify v with
    | .ok xs => .ok (.vlist xs)
    | .error _ => .ok (.vlist [v])
  | .astate => (listify v).map .vlist
  | _ => .error .construct

/-- `coerce_to_type(obj, pattern)` for a basic (leaf) pattern. -/
def coerceToType (v : Val) : PyTy → Except Err Val
  | .atom a => constructAtom a v
  | _ => .error .internal

/-- `coerce_to_type(list_of_coerced, type_)` rebuilding a sequence as the
declared kind (`str(...)` of a list is its repr and always succeeds). -/
def constructSeq (a : PyAtom) (xs : List Val) : Except Err Val :=
  match a with
  | .alist => .ok (.vlist xs)
  | .atuple => .ok (.vtuple xs)
  | .astr => .ok (.vstr (pyStr (.vlist xs)))
  | .amulti => .ok (.vlist xs)
  | .astate => .ok (.vlist xs)
  | _ => .error .construct

/-- `coerce_to_type({...}, type_)` rebuilding a mapping as the declared kind. -/
def constructMap (a : PyAtom) (ps : List (Val × Val)) : Except Err Val :=
  match a with
  | .adict => .ok (.vdict ps)
  | _ => .error .construct

/-- Error-propagating map over a list (the list-comprehension semantics of
the source: stop at the first raising element). -/
def exMapM (g : α → Except Err β) : List α → Except Err (List β)
  | [] => .ok []
  | x :: xs =>
    match g x with
    | .error e => .error e
    | .ok y =>
      match exMapM g xs with
      | .error e => .error e
      | .ok ys => .ok (y :: ys)

/-- Error-propagating map over key/value pairs, key first (the dict
comprehension of `coerce_mapping`). -/
def exMapPairs (gk gv : Val → Except Err Val) :
    List (Val × Val) → Except Err (List (Val × Val))
  | [] => .ok []
  | (k, v) :: rest =>
    match gk k with
    | .error e => .error e
    | .ok k' =>
      match gv v with
      | .error e => .error e
      | .ok v' =>
        match exMapPairs gk gv rest with
        | .error e => .error e
        | .ok qs => .ok ((k', v') :: qs)

/-- The `coerce_union` loop (lines 195-207): walk the per-arm outcomes in
declaration order, return the first success, and if none succeeds raise a
single error aggregating every arm's failure cause (in order). -/
def firstOkAgg : List (Except Err Val) → List Err → Except Err Val
  | [], acc => .error (.unionAgg acc.reverse)
  | .ok v :: _, _ => .ok v
  | .error e :: rest, acc => firstOkAgg rest (e :: acc)

/-- The rebuild type of the container branch of `expand_and_coerce` (lines
164-168): `type(obj)` when the object is already an instance of the origin,
otherwise the origin itself after `check_coercible` allows the conversion. -/
def contTypeOf (al de : List CoRule) (orig : PyAtom) (v : Val) :
    Except Err PyAtom :=
  if instAtom v orig then .ok (typeOf v)
  else
    match check_coercible al de (.obj v) (.atom orig) with
    | .error e => .error e
    | .ok _ => .ok orig

/-- `pattern_args[-1] is Ellipsis` (line 240). -/
def lastIsEllipsis (args : List Pat) : Bool :=
  match args.getLast? with
  | some (.basic .ellipsisT) => true
  | _ => false

/-- The two-element view of `key_pattern, val_pattern = pattern_args`. -/
def twoQ : List Pat → Option (Pat × Pat)
  | [kp, vp] => some (kp, vp)
  | _ => none

/-- The one-element view of `assert len(pattern_args) == 1` (line 257). -/
def oneQ : List Pat → Option Pat
  | [p] => some p
  | _ => none

/-- The container branch of `expand_and_coerce` (lines 161-184 plus
`coerce_mapping`/`coerce_tuple`/`coerce_sequence`), abstracted over the
recursive call `go`: mapping branch (`obj.items()`, coerce keys and values,
rebuild), `list(obj)`, tuple branch (trailing-`Ellipsis` variadic expansion
`chain(pattern_args[:-2], repeat(pattern_args[-2]))`, exact arity check
otherwise), and the sequence branch. -/
def coerceContBody (al de : List CoRule) (go : Pat → Val → Except Err Val)
    (orig : PyAtom) (args : List Pat) (v : Val) : Except Err Val :=
  match contTypeOf al de orig v with
  | .error e => .error e
  | .ok ty_ =>
    if subAtom ty_ .amap then
      match itemsOf v with
      | .error e => .error e
      | .ok ps =>
        match twoQ args with
        | some (kp, vp) =>
          match exMapPairs (go kp) (go vp) ps with
          | .error e => .error e
          | .ok qs => constructMap ty_ qs
        | none => .error .internal
    else
      match listify v with
      | .error e => .error e
      | .ok xs =>
        if subAtom orig .atuple then
          if lastIsEllipsis args then
            match args.dropLast.getLast? with
            | none => .error .internal
            | some rep =>
              let pref := args.dropLast.dropLast
              let pats := pref ++ List.replicate (xs.length - pref.length) rep
              match exMapM (fun xq : Val × Pat => go xq.2 xq.1) (xs.zip pats) with
              | .error e => .error e
              | .ok ys => constructSeq ty_ ys
          else
            if args.length != xs.length then .error (.arity args.length xs.length)
            else
              match exMapM (fun xq : Val × Pat => go xq.2 xq.1) (xs.zip args) with
              | .error e => .error e
              | .ok ys => constructSeq ty_ ys
        else
          match oneQ args with
          | some p1 =>
            match exMapM (go p1) xs with
            | .error e => .error e
            | .ok ys => constructSeq ty_ ys
          | none => .error .internal

/-- `TypeParser.coerce`'s recursive worker `expand_and_coerce` (lines
150-276), with fuel for the nested recursion. Branches, in source order:
basic patterns (`coerce_basic`), unions (`coerce_union`), containers
(`coerceContBody`). -/
def coerceF (al de : List CoRule) : Nat → Pat → Val → Except Err Val
  | 0, _, _ => .error .fuelOut
  | _ + 1, .basic t, v =>
    if instTy v t then .ok v
    else
      match check_coercible al de (.obj v) t with
      | .error e => .error e
      | .ok _ => coerceToType v t
  | fuel + 1, .union args, v =>
    firstOkAgg (args.map (fun a => coerceF al de fuel a v)) []
  | fuel + 1, .cont orig args, v =>
    coerceContBody al de (fun q x => coerceF al de fuel q x) orig args v

/-- `coerce` on a compiled pattern, seeded with sufficient fuel (the pattern
size bounds the recursion depth of the source). -/
def coerce (al de : List CoRule) (p : Pat) (v : Val) : Except Err Val :=
  coerceF al de (patSize p + 1) p v

/-- `TypeParser.COERCIBLE_DEFAULT` (lines 64-73), with numpy absent. -/
def COERCIBLE_DEFAULT : List CoRule :=
  [(.atomR .aseq, .atomR .aseq), (.atomR .amap, .atomR .amap),
   (.atomR .apath, .atomR .apathlike), (.atomR .astr, .atomR .apathlike),
   (.atomR .apathlike, .atomR .apath), (.atomR .apathlike, .atomR .astr),
   (.anyR, .atomR .amulti), (.atomR .aint, .atomR .afloat)]

/-- `TypeParser.NOT_COERCIBLE_DEFAULT` (line 85). -/
def NOT_COERCIBLE_DEFAULT : List CoRule :=
  [(.atomR .astr, .atomR .aseq), (.atomR .aseq, .atomR .astr)]

/-- A constructed `TypeParser` instance: the rule lists and the compiled
pattern (`None` models a field declared without an annotation). -/
structure TypeParserI where
  allow : List CoRule
  deny : List CoRule
  pattern : Option Pat

/-- `TypeParser.__init__` (lines 87-115): `coercible=None` becomes the
allow-everything list `[(Any, Any)]`, `not_coercible=None` becomes `[]`. -/
def TypeParser.init (tp : Option PyTy) (co nco : Option (List CoRule)) :
    TypeParserI :=
  { allow := match co with | none => [(.anyR, .anyR)] | some l => l
    deny := match nco with | none => [] | some l => l
    pattern := tp.map expandPattern }

/-- `TypeParser.coerce` as a method: no pattern means pass through. -/
def coerceP (p : TypeParserI) (v : Val) : Except Err Val :=
  match p.pattern with
  | none => .ok v
  | some pat => coerce p.allow p.deny pat v

/-- The classmethod `TypeParser.matches` (lines 466-503): omitted
`coercible`/`not_coercible` become EMPTY lists (not the class defaults), then
a parser for the target is built and `coerce` is tried. -/
def TypeParser.matches (obj : Val) (target : PyTy)
    (co nco : Option (List CoRule)) : Bool :=
  let coL := co.getD []
  let ncoL := nco.getD []
  let p := TypeParser.init (some target) (some coL) (some ncoL)
  (coerceP p obj).isOkB

/-- "Structurally satisfies" (the standard C10 compares `matches` against): a
pure instance check over the pattern tree — no coercion rules, no constructor
calls, no rebuilding. It walks the same branches as `expand_and_coerce` but
only ever tests `is_instance`. -/
def satisfiesF : Nat → Pat → Val → Bool
  | 0, _, _ => false
  | _ + 1, .basic t, v => instTy v t
  | f + 1, .union args, v => args.any (fun a => satisfiesF f a v)
  | f + 1, .cont orig args, v =>
    if instAtom v orig then
      if subAtom (typeOf v) .amap then
        match itemsOf v with
        | .error _ => false
        | .ok ps =>
          match twoQ args with
          | some (kp, vp) =>
            ps.all (fun kv => satisfiesF f kp kv.1 && satisfiesF f vp kv.2)
          | none => false
      else
        match listify v with
        | .error _ => false
        | .ok xs =>
          if subAtom orig .atuple then
            if lastIsEllipsis args then
              match args.dropLast.getLast? with
              | none => false
              | some rep =>
                let pref := args.dropLast.dropLast
                let pats := pref ++ List.replicate (xs.length - pref.length) rep
                (xs.zip pats).all (fun xq => satisfiesF f xq.2 xq.1)
            else
              if args.length != xs.length then false
              else (xs.zip args).all (fun xq => satisfiesF f xq.2 xq.1)
          else
            match oneQ args with
            | some p1 => xs.all (fun x => satisfiesF f p1 x)
            | none => false
    else false

/-- A value structurally satisfies a compiled pattern. -/
def satisfies (v : Val) (p : Pat) : Bool := satisfiesF (patSize p + 1) p v

/-- `get_args` of a declared type (empty for leaves). -/
def getArgsTy : PyTy → List PyTy
  | .generic _ args => args
  | .unionT args => args
  | _ => []

/-- `get_origin`/`get_args` of a declared type for the checker: a generic
yields its origin class and args, a union yields the (non-class) `ty.Union`
special form and its args, leaves have no origin. -/
inductive OriginK where
  | cls : PyAtom → OriginK
  | unionMarker : OriginK

/-- `get_origin(tp)` paired with `get_args(tp)` when an origin exists. -/
def getOriginArgs : PyTy → Option (OriginK × List PyTy)
  | .generic a args => some (.cls a, args)
  | .unionT args => some (.unionMarker, args)
  | _ => none

/-- The origin as the `source` handed to `check_coercible` (line 323); the
`ty.Union` form is not a class, so only an `Any` rule side can match it. -/
def originSource : OriginK → Source
  | .cls a => .cls (.atom a)
  | .unionMarker => .cls (.unionT [])

/-- `issubclass(tp_origin, ty.Tuple)` (line 327). -/
def originIsTuple : OriginK → Bool
  | .cls a => subAtom a .atuple
  | .unionMarker => false

/-- `issubclass(klass, candidate)` for a class `klass` after unwrapping:
`candidate is ty.Any` accepts; parameterized candidates compare by origin
(the Python call would raise there; unreachable from expanded patterns). -/
def atomVsCand (a : PyAtom) : PyTy → Bool
  | .anyT => true
  | .atom b => subAtom a b
  | .generic b _ => subAtom a b
  | .ellipsisT => false
  | .unionT _ => false

/-- `TypeParser.is_subclass(klass, candidate)` for a single candidate (lines
575-627, modern-Python branch): `Any` is a subclass only of `Any` (default
`any_ok=False`); a union klass requires, for each candidate arm, SOME of its
own arms to be a subclass (the code's `all(any(...))`); generics unwrap to
their origin; plain classes use `issubclass`. -/
def isSubTyF : Nat → PyTy → PyTy → Bool
  | 0, _, _ => false
  | f + 1, k, c =>
    match k with
    | .anyT => match c with | .anyT => true | _ => false
    | .unionT args =>
      let cargs := match c with | .unionT cs => cs | _ => [c]
      cargs.all (fun ca => args.any (fun a => isSubTyF f a ca))
    | .generic a _ => atomVsCand a c
    | .atom a => atomVsCand a c
    | .ellipsisT => false

/-- `is_subclass` with sufficient fuel. -/
def isSubTy (k c : PyTy) : Bool := isSubTyF (tySize k) k c

/-- The pattern-side walk of `check_union` (lines 358-367): try the arms in
order, first success wins, raise an aggregate when all fail. -/
def firstOkU (chk : Pat → Except Err Unit) :
    List Pat → List Err → Except Err Unit
  | [], acc => .error (.unionAgg acc.reverse)
  | p :: ps, acc =>
    match chk p with
    | .ok _ => .ok ()
    | .error e => firstOkU chk ps (e :: acc)

/-- One member's walk of the declared-side `check_union` (lines 338-356): an
arm success clears the reasons; exhausting the arms with reasons raises; an
empty arm list leaves `reasons` falsy and passes (source quirk). -/
def declUnionArm (chk : Pat → Except Err Unit) :
    List Pat → List Err → Except Err Unit
  | [], [] => .ok ()
  | [], e :: es => .error (.unionAgg (e :: es).reverse)
  | p :: ps, acc =>
    match chk p with
    | .ok _ => .ok ()
    | .error e => declUnionArm chk ps (e :: acc)

/-- Declared-side `check_union`: every union member must pass some arm. -/
def declUnionAll (chk : PyTy → Pat → Except Err Unit) (pargs : List Pat) :
    List PyTy → Except Err Unit
  | [] => .ok ()
  | t :: ts =>
    match declUnionArm (chk t) pargs [] with
    | .error e => .error e
    | .ok _ => declUnionAll chk pargs ts

/-- Sequential check of a list of declared types against a fixed check. -/
def goAllT (chk : PyTy → Except Err Unit) : List PyTy → Except Err Unit
  | [] => .ok ()
  | t :: ts =>
    match chk t with
    | .error e => .error e
    | .ok _ => goAllT chk ts

/-- Pairwise check of declared args against pattern args (`zip` truncates). -/
def zipCheck (chk : PyTy → Pat → Except Err Unit) :
    List PyTy → List Pat → Except Err Unit
  | [], _ => .ok ()
  | _, [] => .ok ()
  | t :: ts, p :: ps =>
    match chk t p with
    | .error e => .error e
    | .ok _ => zipCheck chk ts ps

/-- `check_tuple` (lines 375-390): a pattern ending in `Ellipsis` matches
anything when it is the only arm, checks head-to-head when the declared side
is also variadic, and otherwise checks every declared arg against the first
pattern arm; non-variadic patterns require equal arg counts. -/
def checkTupleWith (chk : PyTy → Pat → Except Err Unit)
    (targs : List PyTy) (pargs : List Pat) : Except Err Unit :=
  match pargs.getLast? with
  | some (.basic .ellipsisT) =>
    if pargs.length == 1 then .ok ()
    else
      match targs.getLast? with
      | some .ellipsisT =>
        match targs.head?, pargs.head? with
        | some t0, some p0 => chk t0 p0
        | _, _ => .error .internal
      | _ =>
        match pargs.head? with
        | some p0 => goAllT (fun t => chk t p0) targs
        | none => .error .internal
  | _ =>
    if targs.length != pargs.length then .error .wrongTypeArgCount
    else zipCheck chk targs pargs

/-- `check_sequence` (lines 392-402): strip a trailing declared `Ellipsis`
(raising when nothing remains), then check every declared arg against the
single pattern arm. -/
def checkSeqWith (chk : PyTy → Pat → Except Err Unit)
    (targs : List PyTy) (pargs : List Pat) : Except Err Unit :=
  match oneQ pargs with
  | none => .error .internal
  | some p0 =>
    match targs.getLast? with
    | some .ellipsisT =>
      if targs.dropLast.isEmpty then .error .genericEllipsisUnderspecified
      else goAllT (fun t => chk t p0) targs.dropLast
    | _ => goAllT (fun t => chk t p0) targs

/-- `check_type`'s recursive worker `expand_and_check` (lines 304-404), with
fuel for the pattern recursion: basic patterns (`check_basic`), pattern-side
and declared-side unions (`check_union`), then containers: a declared type
with no origin mismatches (distinguishing "missing type args"), otherwise
`check_coercible(tp_origin, pattern_origin)` then the mapping / tuple (with
the non-tuple declared side getting a synthesized trailing `Ellipsis`) /
sequence structural checks. -/
def checkF (al de : List CoRule) : Nat → PyTy → Pat → Except Err Unit
  | 0, _, _ => .error .fuelOut
  | _ + 1, tp, .basic pt =>
    if isSubTy tp pt then .ok ()
    else check_coercible al de (.cls tp) pt
  | f + 1, tp, .union pargs =>
    match tp with
    | .unionT targs => declUnionAll (fun t p => checkF al de f t p) pargs targs
    | _ => firstOkU (fun p => checkF al de f tp p) pargs []
  | f + 1, tp, .cont porig pargs =>
    match getOriginArgs tp with
    | none =>
      if isSubTy tp (.atom porig) then .error .needsTypeArgs
      else .error .patternMismatch
    | some (tor, targs) =>
      match check_coercible al de (originSource tor) (.atom porig) with
      | .error e => .error e
      | .ok _ =>
        if subAtom porig .amap then
          match targs, pargs with
          | [tk, tv], [pk, pv] =>
            match checkF al de f tk pk with
            | .error e => .error e
            | .ok _ => checkF al de f tv pv
          | _, _ => .error .internal
        else if subAtom porig .atuple then
          if originIsTuple tor then
            checkTupleWith (fun t p => checkF al de f t p) targs pargs
          else
            match targs with
            | [t0] =>
              checkTupleWith (fun t p => checkF al de f t p)
                [t0, .ellipsisT] pargs
            | _ => .error .internal
        else checkSeqWith (fun t p => checkF al de f t p) targs pargs

/-- `TypeParser.check_type` (lines 278-302): missing pattern or `ty.Any`
passes; a `StateArray`-typed source must carry exactly one type argument,
which is checked recursively; anything else goes to `expand_and_check`. -/
def checkTypeF (al de : List CoRule) (pat : Pat) : Nat → PyTy → Except Err Unit
  | 0, _ => .error .fuelOut
  | f + 1, t =>
    match t with
    | .anyT => .ok ()
    | _ =>
      if isSubTy t (.atom .astate) then
        match getArgsTy t with
        | [] => .error .stateArrayNoArgs
        | [a] => checkTypeF al de pat f a
        | _ => .error .stateArrayMultiArgs
      else checkF al de (patSize pat) t pat

/-- `check_type` as a method of a constructed parser. -/
def check_typeP (p : TypeParserI) (t : PyTy) : Except Err Unit :=
  match p.pattern with
  | none => .ok ()
  | some pat => checkTypeF p.allow p.deny pat (tySize t) t

/-- The classmethod `TypeParser.matches_type` (lines 505-542): omitted
`coercible`/`not_coercible` become EMPTY lists (not the class defaults), then
a parser for the target is built and `check_type` is tried. -/
def TypeParser.matches_type (t target : PyTy)
    (co nco : Option (List CoRule)) : Bool :=
  let coL := co.getD []
  let ncoL := nco.getD []
  let p := TypeParser.init (some target) (some coL) (some ncoL)
  (check_typeP p t).isOkB

/-- The object handed to `TypeParser.__call__`: `attrs.NOTHING`, a
`LazyField` (a DeferredValue carrying only its declared type), a `StateArray`
fan-out, or a concrete value. -/
inductive Obj where
  | nothing : Obj
  | lazy : PyTy → Obj
  | state : List Obj → Obj
  | val : Val → Obj

mutual
/-- Size of a call object (fuel seed). -/
def objSize : Obj → Nat
  | .nothing => 1
  | .lazy _ => 1
  | .state xs => 1 + objSizeL xs
  | .val _ => 1
def objSizeL : List Obj → Nat
  | [] => 0
  | x :: xs => 1 + objSize x + objSizeL xs
end

/-- `TypeParser.__call__` (lines 117-148): `attrs.NOTHING` passes through
unchanged; a `LazyField` has its declared type checked by `check_type` and is
returned unchanged; a `StateArray` is rebuilt with every element processed
recursively; anything else is coerced. -/
def callF (p : TypeParserI) : Nat → Obj → Except Err Obj
  | 0, _ => .error .fuelOut
  | _ + 1, .nothing => .ok .nothing
  | _ + 1, .lazy t =>
    match check_typeP p t with
    | .error e => .error e
    | .ok _ => .ok (.lazy t)
  | f + 1, .state xs =>
    match exMapM (fun o => callF p f o) xs with
    | .error e => .error e
    | .ok ys => .ok (.state ys)
  | _ + 1, .val v =>
    match coerceP p v with
    | .error e => .error e
    | .ok w => .ok (.val w)

/-- `__call__` with sufficient fuel. -/
def callP (p : TypeParserI) (o : Obj) : Except Err Obj :=
  callF p (objSize o) o

/-- Is the last element of a declared-type argument list `Ellipsis`? -/
def isEllipsisLastTy (l : List PyTy) : Bool :=
  match l.getLast? with
  | some .ellipsisT => true
  | _ => false

/-- Is a declared-type argument the `Ellipsis` marker? -/
def isEllipsisTy : PyTy → Bool
  | .ellipsisT => true
  | _ => false

/-- `TypeParser.get_item_type` (lines 718-746): non-sequence types are
rejected; an unparameterized sequence type yields `ty.Any`; more than one
type argument is rejected unless it is exactly `(item, Ellipsis)`; otherwise
the first argument is returned. -/
def get_item_type (t : PyTy) : Except Err PyTy :=
  if !(isSubTy t (.atom .aseq)) then .error .notSequence
  else
    match getArgsTy t with
    | [] => .ok .anyT
    | a :: rest =>
      if decide (1 < (a :: rest).length)
          && !(decide ((a :: rest).length = 2) && isEllipsisLastTy (a :: rest))
      then .error .multiItem
      else .ok a

/-- A runtime value for the Bulk Transformer, carrying an explicit object id
(modelling CPython's `id()`): two subterms with the same id stand for the
same object (aliasing). -/
inductive PVal where
  | scalar : Nat → PyAtom → PVal
  | plist : Nat → List PVal → PVal
  | pdict : Nat → List (PVal × PVal) → PVal

mutual
/-- Size of a transformer value (fuel seed). -/
def pvalSize : PVal → Nat
  | .scalar _ _ => 1
  | .plist _ xs => 1 + pvalSizeL xs
  | .pdict _ ps => 1 + pvalSizeP ps
def pvalSizeL : List PVal → Nat
  | [] => 0
  | x :: xs => 1 + pvalSize x + pvalSizeL xs
def pvalSizeP : List (PVal × PVal) → Nat
  | [] => 0
  | (k, v) :: ps => 1 + pvalSize k + pvalSize v + pvalSizeP ps
end

/-- `id(value)`. -/
def idOf : PVal → Nat
  | .scalar i _ => i
  | .plist i _ => i
  | .pdict i _ => i

/-- `type(value)` for transformer values. -/
def typOfP : PVal → PyAtom
  | .scalar _ a => a
  | .plist _ _ => .alist
  | .pdict _ _ => .adict

/-- `is_instance` of a transformer value against a class. -/
def instPA (v : PVal) (a : PyAtom) : Bool := subAtom (typOfP v) a

/-- Negation of the early-return filter of `apply_to_instances` (lines
688-693): the walk proceeds only on instances of the target / Mapping /
Sequence, and never into strings unless the target itself is `str`. -/
def passFilter (tgt : PyAtom) (v : PVal) : Bool :=
  (instPA v tgt || instPA v .amap || instPA v .aseq)
    && ((tgt == .astr) || !instPA v .astr)

/-- Give the result of a `func` invocation or a container rebuild a fresh
object identity (a new CPython object). -/
def retag (n : Nat) : PVal → PVal
  | .scalar _ a => .scalar n a
  | .plist _ xs => .plist n xs
  | .pdict _ ps => .pdict n ps

/-- Instrumentation threaded through the transformer: the ids `func` was
invoked on (in invocation order) and a fresh-id counter for new objects. -/
structure ASt where
  calls : List Nat
  fresh : Nat

/-- Identity-keyed cache lookup (`cache[obj_id]`, line 698). -/
def lookupC : List (Nat × PVal) → Nat → Option PVal
  | [], _ => none
  | (i, r) :: rest, j => if i == j then some r else lookupC rest j

/-- `TypeParser.apply_to_instances` (lines 664-716): early-return filter,
cache lookup, then either invoke `func` on a target instance, or rebuild a
mapping / sequence with every nested element processed (keys before values,
left to right); the result is stored into the invocation's own cache.
Faithful to the source, the recursive calls at lines 706-707 and 713 do NOT
pass `cache` down, so every child call starts with a fresh empty cache. -/
def applyF (tgt : PyAtom) (f : PVal → PVal) :
    Nat → PVal → List (Nat × PVal) → ASt → PVal × List (Nat × PVal) × ASt
  | 0, v, c, st => (v, c, st)
  | fuel + 1, v, c, st =>
    if !passFilter tgt v then (v, c, st)
    else
      match lookupC c (idOf v) with
      | some r => (r, c, st)
      | none =>
        if instPA v tgt then
          let r := retag st.fresh (f v)
          (r, (idOf v, r) :: c,
            { calls := st.calls ++ [idOf v], fresh := st.fresh + 1 })
        else
          match v with
          | .pdict i ps =>
            let step := fun (acc : List (PVal × PVal) × ASt) (kv : PVal × PVal) =>
              let (k', _, st2) := applyF tgt f fuel kv.1 [] acc.2
              let (v', _, st3) := applyF tgt f fuel kv.2 [] st2
              ((k', v') :: acc.1, st3)
            let (qsRev, st') := ps.foldl step ([], st)
            let r := PVal.pdict st'.fresh qsRev.reverse
            (r, (i, r) :: c, { st' with fresh := st'.fresh + 1 })
          | .plist i xs =>
            let step := fun (acc : List PVal × ASt) (x : PVal) =>
              let (y, _, st2) := applyF tgt f fuel x [] acc.2
              (y :: acc.1, st2)
            let (ysRev, st') := xs.foldl step ([], st)
            let r := PVal.plist st'.fresh ysRev.reverse
            (r, (i, r) :: c, { st' with fresh := st'.fresh + 1 })
          | .scalar _ _ => (v, c, st)

/-- `apply_to_instances` entry point: no caller-supplied cache, fresh object
ids from `fresh0` up. -/
def apply_to_instances (tgt : PyAtom) (f : PVal → PVal) (fresh0 : Nat)
    (v : PVal) : PVal × ASt :=
  let (r, _, st) :=
    applyF tgt f (pvalSize v) v [] { calls := [], fresh := fresh0 }
  (r, st)

/-- The error carried by a failed coercion (junk on success; only ever used
where the outcome is known to be an error). -/
def errOf : Except Err Val → Err
  | .error e => e
  | .ok _ => .internal

/-- C9: `check_coercible` returns successfully whenever `source is target`,
bypassing both rule lists — even a DENY rule matching the pair is ignored. -/
theorem check_coercible_identity_bypass
    (allow deny : List CoRule) (k : PyTy) (t : PyTy)
    (h : sourceIs (.cls k) t = true) :
    check_coercible allow deny (.cls k) t = .ok () := by
  unfold check_coercible
  simp [h]

/-- Witness for C9: with `source = target = list` and a DENY rule `(list,
list)` that matches the pair, `check_coercible` still succeeds. -/
theorem check_coercible_identity_bypass_witness :
    sourceIs (.cls (.atom .alist)) (.atom .alist) = true ∧
    ruleMatches (.cls (.atom .alist)) (.atom .alist)
      (.atomR .alist, .atomR .alist) = true ∧
    check_coercible [] [(.atomR .alist, .atomR .alist)]
      (.cls (.atom .alist)) (.atom .alist) = .ok () :=
  ⟨rfl, rfl, check_coercible_identity_bypass _ _ _ _ rfl⟩

/-- Counterexample to C1 as stated: for the pair `(list, list)` with an empty
ALLOW list and a DENY rule matching the pair, `check_coercible` does NOT
reject — the `source is target` identity bypass returns success before either
rule list is consulted. -/
theorem check_coercible_deny_override_counterexample :
    ruleMatches (.cls (.atom .alist)) (.atom .alist)
      (.atomR .alist, .atomR .alist) = true ∧
    ([] : List CoRule).any
      (ruleMatches (.cls (.atom .alist)) (.atom .alist)) = false ∧
    check_coercible [] [(.atomR .alist, .atomR .alist)]
      (.cls (.atom .alist)) (.atom .alist) = .ok () :=
  ⟨rfl, rfl, rfl⟩

/-- C1 (amended): provided the source is not the identical object as the
target, a matching DENY rule forces rejection even when ALLOW rules match, and
the absence of any matching ALLOW rule forces rejection regardless of DENY. -/
theorem check_coercible_deny_overrides_allow
    (allow deny : List CoRule) (s : Source) (t : PyTy)
    (hid : sourceIs s t = false) :
    (deny.any (ruleMatches s t) = true →
      (check_coercible allow deny s t).isOkB = false) ∧
    (allow.any (ruleMatches s t) = false →
      (check_coercible allow deny s t).isOkB = false) := by
  constructor
  · intro hden
    unfold check_coercible
    simp [hid, hden]
    split <;> simp [Except.isOkB]
  · intro hall
    unfold check_coercible
    simp [hid, hall, Except.isOkB]

/-- Witness for C1 (amended): coercing an `int` object into `str` with ALLOW
`[(int, str)]` and DENY `[(int, str)]`: the DENY match rejects; and with an
empty ALLOW list the same pair is rejected as well. -/
theorem check_coercible_deny_overrides_allow_witness :
    ((check_coercible [(.atomR .aint, .atomR .astr)]
        [(.atomR .aint, .atomR .astr)] (.obj (.vint 3)) (.atom .astr)).isOkB
      = false) ∧
    ((check_coercible [] [] (.obj (.vint 3)) (.atom .astr)).isOkB = false) :=
  ⟨(check_coercible_deny_overrides_allow [(.atomR .aint, .atomR .astr)]
      [(.atomR .aint, .atomR .astr)] (.obj (.vint 3)) (.atom .astr) rfl).1 rfl,
   (check_coercible_deny_overrides_allow [] [] (.obj (.vint 3))
      (.atom .astr) rfl).2 rfl⟩

/-- C8: when the value is already an instance of the atom type `T` of a
pattern `Atom(T)`, `coerce` returns the very same value unchanged, for every
rule configuration (no constructor call, no policy consultation). -/
theorem coerce_basic_identity (al de : List CoRule) (a : PyAtom) (v : Val)
    (h : instAtom v a = true) :
    coerce al de (.basic (.atom a)) v = .ok v := by
  unfold coerce coerceF
  simp [instTy, h]

/-- Witness for C8: `coerce(True, Atom(int))` returns the `bool` value itself
(`bool <: int`), even under empty rule lists. -/
theorem coerce_basic_identity_witness :
    instAtom (.vbool true) .aint = true ∧
    coerce [] [] (.basic (.atom .aint)) (.vbool true) = .ok (.vbool true) :=
  ⟨rfl, coerce_basic_identity [] [] .aint (.vbool true) rfl⟩

/-- Counterexample to C4 as stated: with the allow/deny arguments omitted,
`matches(1, float)` returns FALSE — the omitted arguments are replaced by
empty rule lists, not by the built-in default policy, so the `int -> float`
widening is not permitted. -/
theorem matches_omitted_args_int_float_counterexample :
    TypeParser.matches (.vint 1) (.atom .afloat) none none = false := rfl

/-- C4 (amended): under the built-in default policy (the constructor defaults
`COERCIBLE_DEFAULT`/`NOT_COERCIBLE_DEFAULT` passed explicitly), `matches(1,
float)` is true (integer widens to floating) and `matches("x", list)` is
false (textual excluded from ordered-iterable by the default DENY rule);
with the arguments omitted both are false because the rule lists are empty. -/
theorem matches_default_policy :
    TypeParser.matches (.vint 1) (.atom .afloat)
      (some COERCIBLE_DEFAULT) (some NOT_COERCIBLE_DEFAULT) = true ∧
    TypeParser.matches (.vstr "x") (.atom .alist)
      (some COERCIBLE_DEFAULT) (some NOT_COERCIBLE_DEFAULT) = false ∧
    TypeParser.matches (.vint 1) (.atom .afloat) none none = false ∧
    TypeParser.matches (.vstr "x") (.atom .alist) none none = false :=
  ⟨rfl, rfl, rfl, rfl⟩

/-- Every pattern has positive size. -/
theorem patSize_pos (p : Pat) : 0 < patSize p := by
  cases p <;> simp [patSize]

/-- A member of a pattern list is smaller than the list. -/
theorem patSize_lt_of_mem {p : Pat} {args : List Pat} (h : p ∈ args) :
    patSize p < patSizeL args := by
  induction args with
  | nil => cases h
  | cons x xs ih =>
    rcases List.mem_cons.mp h with rfl | hx
    · simp [patSizeL]; omega
    · have := ih hx; simp [patSizeL]; omega

/-- `getLast? = some a` implies membership. -/
theorem mem_of_getLastEq {α : Type} {l : List α} {a : α}
    (h : l.getLast? = some a) : a ∈ l := by
  obtain ⟨hne, heq⟩ := List.mem_getLast?_eq_getLast (x := a) h
  exact heq ▸ List.getLast_mem hne

/-- The two-element view succeeds only on members. -/
theorem twoQ_mem {args : List Pat} {kp vp : Pat}
    (h : twoQ args = some (kp, vp)) : kp ∈ args ∧ vp ∈ args := by
  match args, h with
  | [a, b], h =>
    simp [twoQ] at h
    exact ⟨h.1 ▸ List.mem_cons_self _ _,
      h.2 ▸ List.mem_cons_of_mem _ (List.mem_cons_self _ _)⟩

/-- The one-element view succeeds only on members. -/
theorem oneQ_mem {args : List Pat} {p : Pat} (h : oneQ args = some p) :
    p ∈ args := by
  match args, h with
  | [a], h =>
    simp [oneQ] at h
    exact h ▸ List.mem_cons_self _ _

/-- A pattern drawn from the variadic expansion
`pref ++ replicate _ rep` (with `pref`, `rep` cut out of `args`) is a member
of `args`. -/
theorem mem_args_of_mem_varpats {args : List Pat} {rep q : Pat} {n : Nat}
    (hrep : args.dropLast.getLast? = some rep)
    (hq : q ∈ args.dropLast.dropLast ++ List.replicate n rep) : q ∈ args := by
  rcases List.mem_append.mp hq with h | h
  · exact (List.dropLast_sublist args).mem
      ((List.dropLast_sublist args.dropLast).mem h)
  · have : q = rep := List.eq_of_mem_replicate h
    subst this
    exact (List.dropLast_sublist args).mem (mem_of_getLastEq hrep)

/-- `exMapM` only depends on the function's values on the list. -/
theorem exMapM_congr {α β : Type} {g h : α → Except Err β} {l : List α}
    (hc : ∀ a ∈ l, g a = h a) : exMapM g l = exMapM h l := by
  induction l with
  | nil => rfl
  | cons x xs ih =>
    simp only [exMapM, hc x (List.mem_cons_self _ _)]
    rw [ih (fun a ha => hc a (List.mem_cons_of_mem _ ha))]

/-- `exMapPairs` only depends on the functions' values. -/
theorem exMapPairs_congr {gk1 gv1 gk2 gv2 : Val → Except Err Val}
    {ps : List (Val × Val)} (hk : ∀ x, gk1 x = gk2 x)
    (hv : ∀ x, gv1 x = gv2 x) : exMapPairs gk1 gv1 ps = exMapPairs gk2 gv2 ps := by
  induction ps with
  | nil => rfl
  | cons kv rest ih =>
    obtain ⟨k, v⟩ := kv
    simp only [exMapPairs, hk k, hv v]
    rw [ih]

/-- The container branch only calls `go` on patterns drawn from `args`. -/
theorem coerceContBody_congr (al de : List CoRule)
    (go1 go2 : Pat → Val → Except Err Val) (orig : PyAtom) (args : List Pat)
    (v : Val) (h : ∀ q x, q ∈ args → go1 q x = go2 q x) :
    coerceContBody al de go1 orig args v =
      coerceContBody al de go2 orig args v := by
  unfold coerceContBody
  cases contTypeOf al de orig v with
  | error e => rfl
  | ok ty_ =>
    try dsimp only
    cases hmap : subAtom ty_ .amap with
    | true =>
      try dsimp only
      cases itemsOf v with
      | error e => rfl
      | ok ps =>
        try dsimp only
        cases h2 : twoQ args with
        | none => rfl
        | some kpvp =>
          obtain ⟨kp, vp⟩ := kpvp
          obtain ⟨hkp, hvp⟩ := twoQ_mem h2
          try dsimp only
          rw [exMapPairs_congr (fun x => h kp x hkp) (fun x => h vp x hvp)]
          rfl
    | false =>
      try dsimp only
      cases listify v with
      | error e => rfl
      | ok xs =>
        try dsimp only
        cases htup : subAtom orig .atuple with
        | true =>
          try dsimp only
          cases hell : lastIsEllipsis args with
          | true =>
            try dsimp only
            cases hrep : args.dropLast.getLast? with
            | none => rfl
            | some rep =>
              try dsimp only
              rw [exMapM_congr (fun xq hxq => by
                have hq := (List.of_mem_zip hxq).2
                exact h xq.2 xq.1 (mem_args_of_mem_varpats hrep hq))]
              rfl
          | false =>
            try dsimp only
            cases hlen : args.length != xs.length with
            | true => rfl
            | false =>
              try dsimp only
              rw [exMapM_congr (fun xq hxq =>
                h xq.2 xq.1 (List.of_mem_zip hxq).2)]
              rfl
        | false =>
          try dsimp only
          cases h1 : oneQ args with
          | none => rfl
          | some p1 =>
            try dsimp only
            rw [exMapM_congr (fun x _ => h p1 x (oneQ_mem h1))]
            rfl

/-- Fuel stability: any two sufficient fuels give the same result. -/
theorem coerceF_stable (al de : List CoRule) :
    ∀ f g : Nat, ∀ p v, patSize p ≤ f → patSize p ≤ g →
      coerceF al de f p v = coerceF al de g p v := by
  intro f
  induction f with
  | zero =>
    intro g p v hf _
    exact absurd hf (by have := patSize_pos p; omega)
  | succ n ih =>
    intro g p v hf hg
    cases g with
    | zero => exact absurd hg (by have := patSize_pos p; omega)
    | succ m =>
      cases p with
      | basic t => rfl
      | union args =>
        simp only [coerceF]
        congr 1
        apply List.map_congr_left
        intro a ha
        have h1 : patSize a < patSizeL args := patSize_lt_of_mem ha
        have h2 : patSizeL args ≤ n := by simp [patSize] at hf; omega
        have h3 : patSizeL args ≤ m := by simp [patSize] at hg; omega
        exact ih m a v (by omega) (by omega)
      | cont orig args =>
        simp only [coerceF]
        apply coerceContBody_congr
        intro q x hq
        have h1 : patSize q < patSizeL args := patSize_lt_of_mem hq
        have h2 : patSizeL args ≤ n := by simp [patSize] at hf; omega
        have h3 : patSizeL args ≤ m := by simp [patSize] at hg; omega
        exact ih m q x (by omega) (by omega)

/-- Any sufficient fuel computes `coerce`. -/
theorem coerceF_eq_coerce (al de : List CoRule) {f : Nat} {p : Pat} (v : Val)
    (h : patSize p ≤ f) :
    coerceF al de f p v = coerce al de p v :=
  coerceF_stable al de f (patSize p + 1) p v h (by omega)

/-- Unfolding: coercing against a union is the ordered walk `firstOkAgg` over
the per-arm outcomes. -/
theorem coerce_union_eq (al de : List CoRule) (args : List Pat) (v : Val) :
    coerce al de (.union args) v =
      firstOkAgg (args.map (fun a => coerce al de a v)) [] := by
  unfold coerce
  show firstOkAgg (args.map (fun a => coerceF al de (patSize (Pat.union args)) a v)) []
      = firstOkAgg (args.map (fun a => coerce al de a v)) []
  congr 1
  apply List.map_congr_left
  intro a ha
  have h1 : patSize a < patSizeL args := patSize_lt_of_mem ha
  exact coerceF_eq_coerce al de v (by simp [patSize]; omega)

/-- `firstOkAgg` returns the first successful outcome. -/
theorem firstOkAgg_find (rs : List (Except Err Val)) (acc : List Err)
    (r : Except Err Val) (h : rs.find? (fun r => r.isOkB) = some r) :
    firstOkAgg rs acc = r := by
  induction rs generalizing acc with
  | nil => simp at h
  | cons x rest ih =>
    cases x with
    | ok w =>
      rw [List.find?_cons_of_pos _ (by rfl)] at h
      cases h
      rfl
    | error e =>
      rw [List.find?_cons_of_neg _ (by simp [Except.isOkB])] at h
      exact ih (e :: acc) h

/-- When every outcome is a failure, `firstOkAgg` aggregates all causes. -/
theorem firstOkAgg_none (rs : List (Except Err Val)) (acc : List Err)
    (h : ∀ r ∈ rs, r.isOkB = false) :
    firstOkAgg rs acc = .error (.unionAgg (acc.reverse ++ rs.map errOf)) := by
  induction rs generalizing acc with
  | nil => simp [firstOkAgg]
  | cons x rest ih =>
    cases x with
    | ok w => exact absurd (h _ (List.mem_cons_self _ _)) (by simp [Except.isOkB])
    | error e =>
      show firstOkAgg rest (e :: acc) = _
      rw [ih (e :: acc) (fun r hr => h r (List.mem_cons_of_mem _ hr))]
      simp [errOf]

/-- C2: coercing a value against `Union(args)` tries the arms in declaration
order and returns the result of the first arm whose recursive coercion
succeeds; if every arm fails it raises a single error aggregating each arm's
individual failure cause, in order. -/
theorem coerce_union_first_success (al de : List CoRule) (args : List Pat)
    (v : Val) :
    (∀ a : Pat, args.find? (fun a => (coerce al de a v).isOkB) = some a →
      coerce al de (.union args) v = coerce al de a v) ∧
    ((∀ a ∈ args, (coerce al de a v).isOkB = false) →
      coerce al de (.union args) v =
        .error (.unionAgg (args.map (fun a => errOf (coerce al de a v))))) := by
  constructor
  · intro a ha
    rw [coerce_union_eq]
    refine firstOkAgg_find _ _ _ ?_
    rw [List.find?_map]
    have hcomp : ((fun r : Except Err Val => r.isOkB) ∘ fun a => coerce al de a v)
        = fun a => (coerce al de a v).isOkB := rfl
    rw [hcomp, ha]
    rfl
  · intro hall
    rw [coerce_union_eq]
    rw [firstOkAgg_none _ _ (fun r hr => by
      obtain ⟨a, haa, rfl⟩ := List.mem_map.mp hr
      exact hall a haa)]
    simp [List.map_map, Function.comp]

/-- Witness for C2: `coerce(3, Union[int, str])` succeeds via the first arm
and returns the int itself; `coerce("x", Union[int])` fails and aggregates
the single arm's cause. -/
theorem coerce_union_first_success_witness :
    (coerce [] [] (.union [.basic (.atom .aint), .basic (.atom .astr)]) (.vint 3)
      = coerce [] [] (.basic (.atom .aint)) (.vint 3)) ∧
    (coerce [] [] (.basic (.atom .aint)) (.vint 3) = .ok (.vint 3)) ∧
    (coerce [] [] (.union [.basic (.atom .afloat)]) (.vint 3)
      = .error (.unionAgg [errOf (coerce [] [] (.basic (.atom .afloat)) (.vint 3))])) :=
  ⟨(coerce_union_first_success [] []
      [.basic (.atom .aint), .basic (.atom .astr)] (.vint 3)).1
      (.basic (.atom .aint)) rfl,
   rfl,
   by
    have h := (coerce_union_first_success [] [] [.basic (.atom .afloat)] (.vint 3)).2
      (fun a ha => by
        rw [List.mem_singleton.mp ha]
        rfl)
    rw [h]
    rfl⟩

/-- Unfolding: coercing against a container pattern is the container branch
with the recursion tied back to `coerce`. -/
theorem coerce_cont_eq (al de : List CoRule) (orig : PyAtom) (args : List Pat)
    (v : Val) :
    coerce al de (.cont orig args) v =
      coerceContBody al de (fun q x => coerce al de q x) orig args v := by
  unfold coerce
  show coerceContBody al de
      (fun q x => coerceF al de (patSize (Pat.cont orig args)) q x) orig args v = _
  apply coerceContBody_congr
  intro q x hq
  have h1 : patSize q < patSizeL args := patSize_lt_of_mem hq
  exact coerceF_eq_coerce al de x (by simp [patSize]; omega)

/-- Zipping a list with a same-length replication pairs every element with
the replicated value. -/
theorem zip_replicate_self {α β : Type} (xs : List α) (c : β) :
    xs.zip (List.replicate xs.length c) = xs.map (fun x => (x, c)) := by
  induction xs with
  | nil => rfl
  | cons x rest ih => simp [List.replicate, ih]

/-- `exMapM` after a `map` fuses. -/
theorem exMapM_map {α β γ : Type} (g : β → Except Err γ) (h : α → β)
    (xs : List α) : exMapM g (xs.map h) = exMapM (fun x => g (h x)) xs := by
  induction xs with
  | nil => rfl
  | cons x rest ih => simp only [List.map, exMapM, ih]

/-- C6: a variadic tuple pattern `(item, Ellipsis)` coerces an input tuple of
any arity (including zero) by repeating the single element pattern for every
position; a non-variadic tuple pattern rejects any input whose length differs
from the pattern's, with an error stating the expected and actual counts. -/
theorem coerce_tuple_variadic_arity (al de : List CoRule) (p : Pat)
    (xs : List Val) (args : List Pat) :
    (coerce al de (.cont .atuple [p, .basic .ellipsisT]) (.vtuple xs)
      = match exMapM (fun x => coerce al de p x) xs with
        | .error e => .error e
        | .ok ys => .ok (.vtuple ys)) ∧
    (args ≠ [] → lastIsEllipsis args = false → args.length ≠ xs.length →
      coerce al de (.cont .atuple args) (.vtuple xs)
        = .error (.arity args.length xs.length)) := by
  constructor
  · rw [coerce_cont_eq]
    show ((match exMapM (fun xq : Val × Pat => coerce al de xq.2 xq.1)
        (xs.zip ([] ++ List.replicate (xs.length - 0) p)) with
      | .error e => .error e
      | .ok ys => constructSeq PyAtom.atuple ys : Except Err Val)) = _
    rw [List.nil_append, Nat.sub_zero, zip_replicate_self, exMapM_map]
    cases exMapM (fun x => coerce al de p x) xs with
    | error e => rfl
    | ok ys => rfl
  · intro _ hell hlen
    have hb : (args.length != xs.length) = true := by simpa using hlen
    rw [coerce_cont_eq]
    unfold coerceContBody
    simp only [show contTypeOf al de .atuple (.vtuple xs) = Except.ok .atuple from rfl,
      show subAtom PyAtom.atuple .amap = false from rfl,
      show listify (.vtuple xs) = Except.ok xs from rfl,
      show subAtom PyAtom.atuple .atuple = true from rfl,
      hell, hb]
    simp

/-- Witness for C6: the variadic pattern `Tuple[int, ...]` accepts the empty
tuple and a two-tuple of ints; the non-variadic pattern `Tuple[int]` rejects
a zero-length tuple stating expected 1, got 0. -/
theorem coerce_tuple_variadic_arity_witness :
    (coerce [] [] (.cont .atuple [.basic (.atom .aint), .basic .ellipsisT])
        (.vtuple []) = .ok (.vtuple [])) ∧
    (coerce [] [] (.cont .atuple [.basic (.atom .aint), .basic .ellipsisT])
        (.vtuple [.vint 1, .vint 2]) = .ok (.vtuple [.vint 1, .vint 2])) ∧
    (coerce [] [] (.cont .atuple [.basic (.atom .aint)]) (.vtuple [])
      = .error (.arity 1 0)) := by
  refine ⟨?_, ?_, ?_⟩
  · rw [(coerce_tuple_variadic_arity [] [] (.basic (.atom .aint)) []
      [.basic (.atom .aint)]).1]
    rfl
  · rw [(coerce_tuple_variadic_arity [] [] (.basic (.atom .aint))
      [.vint 1, .vint 2] []).1]
    rfl
  · exact (coerce_tuple_variadic_arity [] [] (.basic (.atom .aint)) []
      [.basic (.atom .aint)]).2 (by simp) rfl (by decide)

/-- `firstOkAgg` succeeds exactly when some outcome succeeds (the accumulator
only shapes the error payload). -/
theorem firstOkAgg_isOk (rs : List (Except Err Val)) (acc : List Err) :
    (firstOkAgg rs acc).isOkB = rs.any (fun r => r.isOkB) := by
  induction rs generalizing acc with
  | nil => rfl
  | cons x rest ih =>
    cases x with
    | ok w => rfl
    | error e =>
      show (firstOkAgg rest (e :: acc)).isOkB = _
      rw [ih (e :: acc)]
      rw [show ((Except.error e : Except Err Val) :: rest).any (fun r => r.isOkB)
        = ((Except.error e : Except Err Val).isOkB || rest.any (fun r => r.isOkB)) from rfl]
      rw [show (Except.error e : Except Err Val).isOkB = false from rfl, Bool.false_or]

/-- `exMapM` succeeds exactly when every element does. -/
theorem exMapM_isOk {α β : Type} (g : α → Except Err β) (l : List α) :
    (exMapM g l).isOkB = l.all (fun x => (g x).isOkB) := by
  induction l with
  | nil => rfl
  | cons x xs ih =>
    simp only [List.all_cons]
    rw [← ih]
    simp only [exMapM]
    cases hg : g x with
    | error e => rfl
    | ok y =>
      cases hr : exMapM g xs with
      | error e => rfl
      | ok ys => rfl

/-- `exMapPairs` succeeds exactly when every key and value does. -/
theorem exMapPairs_isOk (gk gv : Val → Except Err Val)
    (ps : List (Val × Val)) :
    (exMapPairs gk gv ps).isOkB
      = ps.all (fun kv => (gk kv.1).isOkB && (gv kv.2).isOkB) := by
  induction ps with
  | nil => rfl
  | cons kv rest ih =>
    obtain ⟨k, v⟩ := kv
    simp only [List.all_cons]
    rw [← ih]
    simp only [exMapPairs]
    cases hk : gk k with
    | error e => rfl
    | ok k' =>
      cases hv : gv v with
      | error e => rfl
      | ok v' =>
        cases hr : exMapPairs gk gv rest with
        | error e => rfl
        | ok qs => rfl

/-- The only modelled value kind whose type is a `Mapping` is `dict`. -/
theorem typeOf_amap_eq_adict (v : Val) (h : subAtom (typeOf v) .amap = true) :
    typeOf v = .adict := by
  cases v <;> simp_all [typeOf, subAtom]

/-- Rebuilding a sequence as the runtime type of an iterable, non-mapping
value always succeeds. -/
theorem constructSeq_typeOf_ok (v : Val) (ys : List Val)
    (hl : (listify v).isOkB = true) (hm : subAtom (typeOf v) .amap = false) :
    (constructSeq (typeOf v) ys).isOkB = true := by
  cases v <;> simp_all [listify, typeOf, subAtom, constructSeq, Except.isOkB]

/-- With both rule lists empty, `coerce` succeeds exactly on the values that
structurally satisfy the pattern: every `check_coercible` consultation fails
(no ALLOW rule can match), so success requires `is_instance` at every level,
and every rebuild of an already-instance container succeeds. -/
theorem coerceF_empty_isOk :
    ∀ (f : Nat) (p : Pat) (v : Val),
      (coerceF [] [] f p v).isOkB = satisfiesF f p v := by
  intro f
  induction f with
  | zero => intro p v; rfl
  | succ n ih =>
    intro p v
    cases p with
    | basic t =>
      simp only [coerceF, satisfiesF]
      cases h : instTy v t with
      | true => simp [Except.isOkB]
      | false =>
        have hc : check_coercible [] [] (.obj v) t = .error .noAllow := by
          unfold check_coercible
          simp [sourceIs.eq_def]
        simp [hc, Except.isOkB]
    | union args =>
      simp only [coerceF, satisfiesF]
      rw [firstOkAgg_isOk]
      have hmap : ∀ L : List Pat,
          (L.map (fun a => coerceF [] [] n a v)).any (fun r => r.isOkB)
            = L.any (fun a => satisfiesF n a v) := by
        intro L
        induction L with
        | nil => rfl
        | cons a rest ihL =>
          simp only [List.map_cons, List.any_cons]
          rw [ihL, ih a v]
      exact hmap args
    | cont orig args =>
      simp only [coerceF, satisfiesF]
      unfold coerceContBody
      cases h : instAtom v orig with
      | false =>
        have hct : contTypeOf [] [] orig v = .error .noAllow := by
          unfold contTypeOf check_coercible
          simp [h, sourceIs]
        simp [hct, h, Except.isOkB]
      | true =>
        have hct : contTypeOf [] [] orig v = .ok (typeOf v) := by
          simp [contTypeOf, h]
        cases hm : subAtom (typeOf v) .amap with
        | true =>
          have hty : typeOf v = .adict := typeOf_amap_eq_adict v hm
          cases hit : itemsOf v with
          | error e => simp [hct, h, hm, hit, Except.isOkB]
          | ok ps =>
            cases h2 : twoQ args with
            | none => simp [hct, h, hm, hit, h2, Except.isOkB]
            | some kpvp =>
              obtain ⟨kp, vp⟩ := kpvp
              have hall : (exMapPairs (coerceF [] [] n kp) (coerceF [] [] n vp) ps).isOkB
                  = ps.all (fun kv => satisfiesF n kp kv.1 && satisfiesF n vp kv.2) := by
                rw [exMapPairs_isOk]
                congr 1
                funext kv
                rw [ih kp kv.1, ih vp kv.2]
              cases hr : exMapPairs (coerceF [] [] n kp) (coerceF [] [] n vp) ps with
              | error e =>
                rw [hr] at hall
                simp only [Except.isOkB] at hall
                simp [hct, h, hm, hit, h2, hr, Except.isOkB, ← hall]
              | ok qs =>
                rw [hr] at hall
                simp only [Except.isOkB] at hall
                have hcm : constructMap (typeOf v) qs = .ok (.vdict qs) := by
                  rw [hty]
                  rfl
                simp [hct, h, hm, hit, h2, hr, hcm, Except.isOkB, ← hall]
        | false =>
          cases hl : listify v with
          | error e => simp [hct, h, hm, hl, Except.isOkB]
          | ok xs =>
            have hlok : (listify v).isOkB = true := by simp [hl, Except.isOkB]
            cases htup : subAtom orig .atuple with
            | true =>
              cases hell : lastIsEllipsis args with
              | true =>
                cases hrep : args.dropLast.getLast? with
                | none => simp [hct, h, hm, hl, htup, hell, hrep, Except.isOkB]
                | some rep =>
                  have hall : (exMapM (fun xq : Val × Pat => coerceF [] [] n xq.2 xq.1)
                      (xs.zip (args.dropLast.dropLast ++
                        List.replicate (xs.length - args.dropLast.dropLast.length) rep))).isOkB
                      = (xs.zip (args.dropLast.dropLast ++
                        List.replicate (xs.length - args.dropLast.dropLast.length) rep)).all
                          (fun xq => satisfiesF n xq.2 xq.1) := by
                    rw [exMapM_isOk]
                    congr 1
                    funext xq
                    rw [ih xq.2 xq.1]
                  cases hr : exMapM (fun xq : Val × Pat => coerceF [] [] n xq.2 xq.1)
                      (xs.zip (args.dropLast.dropLast ++
                        List.replicate (xs.length - args.dropLast.dropLast.length) rep)) with
                  | error e =>
                    rw [hr] at hall
                    simp only [Except.isOkB] at hall
                    simp only [List.length_dropLast] at hr hall
                    simp [hct, h, hm, hl, htup, hell, hrep, hr, Except.isOkB, ← hall]
                  | ok ys =>
                    rw [hr] at hall
                    simp only [Except.isOkB] at hall
                    simp only [List.length_dropLast] at hr hall
                    have hcs := constructSeq_typeOf_ok v ys hlok hm
                    simpa [hct, h, hm, hl, htup, hell, hrep, hr, Except.isOkB, ← hall] using hcs
              | false =>
                cases hlen : args.length != xs.length with
                | true => simp [hct, h, hm, hl, htup, hell, hlen, Except.isOkB]
                | false =>
                  have hall : (exMapM (fun xq : Val × Pat => coerceF [] [] n xq.2 xq.1)
                      (xs.zip args)).isOkB
                      = (xs.zip args).all (fun xq => satisfiesF n xq.2 xq.1) := by
                    rw [exMapM_isOk]
                    congr 1
                    funext xq
                    rw [ih xq.2 xq.1]
                  cases hr : exMapM (fun xq : Val × Pat => coerceF [] [] n xq.2 xq.1)
                      (xs.zip args) with
                  | error e =>
                    rw [hr] at hall
                    simp only [Except.isOkB] at hall
                    simp [hct, h, hm, hl, htup, hell, hlen, hr, Except.isOkB, ← hall]
                  | ok ys =>
                    rw [hr] at hall
                    simp only [Except.isOkB] at hall
                    have hcs := constructSeq_typeOf_ok v ys hlok hm
                    simpa [hct, h, hm, hl, htup, hell, hlen, hr, Except.isOkB, ← hall] using hcs
            | false =>
              cases h1 : oneQ args with
              | none => simp [hct, h, hm, hl, htup, h1, Except.isOkB]
              | some p1 =>
                have hall : (exMapM (coerceF [] [] n p1) xs).isOkB
                    = xs.all (fun x => satisfiesF n p1 x) := by
                  rw [exMapM_isOk]
                  congr 1
                  funext x
                  rw [ih p1 x]
                cases hr : exMapM (coerceF [] [] n p1) xs with
                | error e =>
                  rw [hr] at hall
                  simp only [Except.isOkB] at hall
                  simp [hct, h, hm, hl, htup, h1, hr, Except.isOkB, ← hall]
                | ok ys =>
                  rw [hr] at hall
                  simp only [Except.isOkB] at hall
                  have hcs := constructSeq_typeOf_ok v ys hlok hm
                  simpa [hct, h, hm, hl, htup, h1, hr, Except.isOkB, ← hall] using hcs

/-- C10: with the rule arguments omitted, `matches` and `matches_type`
replace them with EMPTY rule lists rather than the built-in defaults, and
under those empty lists `matches(v, T)` is true exactly when `v` already
structurally satisfies the compiled pattern of `T` — no atom-level conversion
is ever permitted (the built-in defaults would accept `matches(1, float)`;
the omitted-argument path rejects it). -/
theorem matches_omitted_args_empty_rules :
    (∀ (v : Val) (tgt : PyTy),
      TypeParser.matches v tgt none none = satisfies v (expandPattern tgt)) ∧
    (∀ (v : Val) (tgt : PyTy),
      TypeParser.matches v tgt none none
        = TypeParser.matches v tgt (some []) (some [])) ∧
    (∀ (t tgt : PyTy),
      TypeParser.matches_type t tgt none none
        = TypeParser.matches_type t tgt (some []) (some [])) ∧
    TypeParser.matches (.vint 1) (.atom .afloat)
        (some COERCIBLE_DEFAULT) (some NOT_COERCIBLE_DEFAULT)
      ≠ TypeParser.matches (.vint 1) (.atom .afloat) none none := by
  refine ⟨?_, ?_, ?_, ?_⟩
  · intro v tgt
    exact coerceF_empty_isOk (patSize (expandPattern tgt) + 1)
      (expandPattern tgt) v
  · intro v tgt
    rfl
  · intro t tgt
    rfl
  · decide

/-- C5: for a `LazyField` (DeferredValue) input, `__call__` performs only the
declared-type check against the pattern: when the check succeeds it returns
the very same `LazyField` unchanged (the value is never converted), and when
the check fails the error propagates. -/
theorem call_lazy_check_only (p : TypeParserI) (t : PyTy) :
    ((check_typeP p t).isOkB = true → callP p (.lazy t) = .ok (.lazy t)) ∧
    ((check_typeP p t).isOkB = false → (callP p (.lazy t)).isOkB = false) := by
  constructor
  · intro h
    show (match check_typeP p t with
      | .error e => (.error e : Except Err Obj)
      | .ok _ => .ok (.lazy t)) = .ok (.lazy t)
    cases hc : check_typeP p t with
    | error e => rw [hc] at h; exact absurd h (by simp [Except.isOkB])
    | ok u => rfl
  · intro h
    show (match check_typeP p t with
      | .error e => (.error e : Except Err Obj)
      | .ok _ => .ok (.lazy t)).isOkB = false
    cases hc : check_typeP p t with
    | error e => rfl
    | ok u => rw [hc] at h; simp [Except.isOkB] at h

/-- Witness for C5: a parser for `int` type-checks a deferred `int` and
returns the identical `LazyField`; for a deferred `str` (no coercion rule in
scope), `__call__` fails instead of converting. -/
theorem call_lazy_check_only_witness :
    (callP (TypeParser.init (some (.atom .aint)) none none)
        (.lazy (.atom .aint)) = .ok (.lazy (.atom .aint))) ∧
    ((callP (TypeParser.init (some (.atom .aint)) (some []) (some []))
        (.lazy (.atom .astr))).isOkB = false) :=
  ⟨(call_lazy_check_only (TypeParser.init (some (.atom .aint)) none none)
      (.atom .aint)).1 rfl,
   (call_lazy_check_only (TypeParser.init (some (.atom .aint)) (some []) (some []))
      (.atom .astr)).2 rfl⟩

/-- C7: `get_item_type` rejects every non-sequence-like input type; rejects
every sequence type with more than one non-variadic element type argument;
and returns the `ty.Any` marker for every sequence type carrying no type
parameters. -/
theorem get_item_type_spec (t : PyTy) :
    (isSubTy t (.atom .aseq) = false → get_item_type t = .error .notSequence) ∧
    (isSubTy t (.atom .aseq) = true →
      1 < ((getArgsTy t).filter (fun a => !isEllipsisTy a)).length →
      (get_item_type t).isOkB = false) ∧
    (isSubTy t (.atom .aseq) = true → getArgsTy t = [] →
      get_item_type t = .ok .anyT) := by
  refine ⟨?_, ?_, ?_⟩
  · intro h
    unfold get_item_type
    simp [h]
  · intro hs hlen
    unfold get_item_type
    rw [hs]
    cases hargs : getArgsTy t with
    | nil => rw [hargs] at hlen; simp at hlen
    | cons a rest =>
      rw [hargs] at hlen
      rcases rest with _ | ⟨b, rest2⟩
      · exfalso
        have hle : ((a :: ([] : List PyTy)).filter
            (fun x => !isEllipsisTy x)).length ≤ 1 := by
          cases hA : isEllipsisTy a <;> simp [List.filter, hA]
        omega
      · rcases rest2 with _ | ⟨c, rest3⟩
        · cases hb : isEllipsisTy b with
          | true =>
            exfalso
            have hle : ((a :: [b]).filter
                (fun x => !isEllipsisTy x)).length ≤ 1 := by
              cases hA : isEllipsisTy a <;> simp [List.filter, hA, hb]
            omega
          | false =>
            have hlast : isEllipsisLastTy [a, b] = false := by
              cases b <;> simp [isEllipsisTy] at hb <;>
                simp [isEllipsisLastTy]
            simp [hlast, Except.isOkB]
        · have h2 : decide ((a :: b :: c :: rest3).length = 2) = false := by
            simp [List.length]
          simp [h2, Except.isOkB]
  · intro hs hargs
    unfold get_item_type
    rw [hs, hargs]
    rfl

/-- Witness for C7: `int` is not sequence-like and is rejected;
`Tuple[int, str]` has two non-variadic element types and is rejected; bare
`list` carries no parameters and yields `ty.Any`. -/
theorem get_item_type_spec_witness :
    (get_item_type (.atom .aint) = .error .notSequence) ∧
    ((get_item_type (.generic .atuple [.atom .aint, .atom .astr])).isOkB
      = false) ∧
    (get_item_type (.atom .alist) = .ok .anyT) :=
  ⟨(get_item_type_spec (.atom .aint)).1 rfl,
   (get_item_type_spec (.generic .atuple [.atom .aint, .atom .astr])).2.1
     rfl (by decide),
   (get_item_type_spec (.atom .alist)).2.2 rfl rfl⟩

/-- C3 (failing-input evaluation): running `apply_to_instances(Path, id, l)`
on a list holding the SAME Path object (id 1) at both positions invokes
`func` at BOTH occurrences (`calls = [1, 1]`) and the rebuilt list holds two
DISTINCT result objects (fresh ids 10 and 11) — because the recursive calls
do not pass the cache down, the identity cache never takes effect, contrary
to the function's own docstring and the claim. -/
theorem apply_to_instances_shared_ref_bug :
    ((apply_to_instances .apath (fun v => v) 10
        (.plist 0 [.scalar 1 .apath, .scalar 1 .apath])).2.calls = [1, 1]) ∧
    ((apply_to_instances .apath (fun v => v) 10
        (.plist 0 [.scalar 1 .apath, .scalar 1 .apath])).1
      = .plist 12 [.scalar 10 .apath, .scalar 11 .apath]) :=
  ⟨rfl, rfl⟩
